import Mathlib

/-!
Verification of the jarvis repository's two core subsystems against its
natural-language specification: the temporally-versioned fact store
(`src/memory/long_term.py`) and the API-credential pool / key-rotation engine
(`src/brain/api_manager.py`, `src/brain/llm_utils/key_manager.py`,
`src/brain/llm_clients/openai_client.py`).

Timestamps are modelled as natural numbers (the code only ever compares them);
SQLite tables are modelled as Lean lists of rows in insertion order; a guarded
SQL statement that may raise `sqlite3.DatabaseError` is modelled as a total
function taking an explicit error flag.
-/

namespace Jarvis

/-! ## Fact store (`src/memory/long_term.py`)

One row of the `facts` table.  The Python column `attribute` is called `attr`
here; `confidence`, `source` and `created_at` are never read by any operation
under verification and are omitted.  `valid_from`/`valid_until` are DATETIME
columns, modelled as `Nat` (they are only compared). -/
structure Fact where
  subject : String
  attr : String
  value : String
  valid_from : Nat
  valid_until : Option Nat
  deriving Repr, DecidableEq

/-- The `facts` table: rows in insertion order. -/
abbrev FactRows := List Fact

/-- Row filter of `SELECT ... WHERE subject = ? AND attribute = ? AND valid_until IS NULL`. -/
def isCurrentRow (s a : String) (r : Fact) : Bool :=
  r.subject == s && r.attr == a && r.valid_until.isNone

/-- Effect of add_fact's first UPDATE on one row
(`UPDATE facts SET valid_until = ? WHERE subject = ? AND attribute = ? AND valid_until IS NULL`). -/
def closeCurrent (s a : String) (t : Nat) (r : Fact) : Fact :=
  if isCurrentRow s a r then { r with valid_until := some t } else r

/-- The UPDATE statement of `LongTermMemory.add_fact` applied to the whole table. -/
def closeStmt (s a : String) (t : Nat) (rows : FactRows) : FactRows :=
  rows.map (closeCurrent s a t)

/-- The INSERT statement of `LongTermMemory.add_fact`:
`INSERT INTO facts (subject, attribute, value, valid_from, valid_until) VALUES (?, ?, ?, ?, NULL)`. -/
def insertStmt (s a v : String) (t : Nat) (rows : FactRows) : FactRows :=
  rows ++ [⟨s, a, v, t, none⟩]

/-- LongTermMemory.add_fact on the error-free path: close the current row for
(subject, attribute), then insert the new row as current. -/
def add_fact (rows : FactRows) (s a v : String) (t : Nat) : FactRows :=
  insertStmt s a v t (closeStmt s a t rows)

/-- ORDER BY valid_from DESC LIMIT 1: the first row (in table order) of maximal
`valid_from` among the given rows. -/
def topByValidFrom : List Fact → Option Fact
  | [] => none
  | r :: rs =>
    match topByValidFrom rs with
    | none => some r
    | some b => if b.valid_from > r.valid_from then some b else some r

/-- LongTermMemory.get_current_fact (error-free path): the row for
(subject, attribute) with `valid_until IS NULL`, `ORDER BY valid_from DESC LIMIT 1`. -/
def get_current_fact (rows : FactRows) (s a : String) : Option Fact :=
  topByValidFrom (rows.filter (isCurrentRow s a))

/-- Row filter of `LongTermMemory.get_fact_at_time`: `subject = ? AND attribute = ?
AND valid_from <= ? AND (valid_until >= ? OR valid_until IS NULL)`. -/
def atTimeRow (s a : String) (t : Nat) (r : Fact) : Bool :=
  r.subject == s && r.attr == a && decide (r.valid_from ≤ t) &&
    (match r.valid_until with
     | none => true
     | some u => decide (u ≥ t))

/-- LongTermMemory.get_fact_at_time (error-free path). -/
def get_fact_at_time (rows : FactRows) (s a : String) (t : Nat) : Option Fact :=
  topByValidFrom (rows.filter (atTimeRow s a t))

/-- Insert into a list sorted by descending `valid_from` (stable). -/
def insertByValidFromDesc (r : Fact) : List Fact → List Fact
  | [] => [r]
  | x :: xs =>
    if r.valid_from ≤ x.valid_from then x :: insertByValidFromDesc r xs
    else r :: x :: xs

/-- ORDER BY valid_from DESC over a whole row list (stable sort). -/
def sortByValidFromDesc (l : List Fact) : List Fact :=
  l.foldr insertByValidFromDesc []

/-- LongTermMemory.get_fact_history (error-free path): all rows for
(subject, attribute), newest first. -/
def get_fact_history (rows : FactRows) (s a : String) : List Fact :=
  sortByValidFromDesc (rows.filter (fun r => r.subject == s && r.attr == a))

/-! Error handling (`LongTermMemory._execute_safe` and the read operations'
`except sqlite3.DatabaseError` handlers).  Whether a given low-level sqlite
call raises `sqlite3.DatabaseError` is an environmental fact, passed as the
Boolean `err`.  On error the store is recreated (`_recreate_database`: backup,
delete, fresh empty schema), i.e. the surviving row list is `[]`, and the
operation reports failure / an empty result instead of raising. -/

/-- LongTermMemory._execute_safe: run one guarded SQL statement.  Returns
`true` and the updated table on success; on `sqlite3.DatabaseError` recreates
the database (fresh empty table) and returns `false`. -/
def execute_safe (err : Bool) (stmt : FactRows → FactRows) (rows : FactRows) :
    Bool × FactRows :=
  if err then (false, [])
  else (true, stmt rows)

/-- LongTermMemory.add_fact with fallible storage: the UPDATE and the INSERT
each run through `_execute_safe` (`e1`, `e2` say whether each raises); the
returned Boolean is the INSERT's success flag (`success` in the source). -/
def add_fact_op (e1 e2 : Bool) (rows : FactRows) (s a v : String) (t : Nat) :
    Bool × FactRows :=
  let r1 := execute_safe e1 (closeStmt s a t) rows
  let r2 := execute_safe e2 (insertStmt s a v t) r1.2
  (r2.1, r2.2)

/-- LongTermMemory.get_current_fact with fallible storage: on
`sqlite3.DatabaseError` the store is recreated and `None` is returned. -/
def get_current_fact_op (err : Bool) (rows : FactRows) (s a : String) :
    Option Fact × FactRows :=
  if err then (none, [])
  else (get_current_fact rows s a, rows)

/-- LongTermMemory.get_fact_history with fallible storage: on
`sqlite3.DatabaseError` the store is recreated and `[]` is returned. -/
def get_fact_history_op (err : Bool) (rows : FactRows) (s a : String) :
    List Fact × FactRows :=
  if err then ([], [])
  else (get_fact_history rows s a, rows)

/-- LongTermMemory.get_fact_at_time with fallible storage: on
`sqlite3.DatabaseError` the store is recreated and `None` is returned. -/
def get_fact_at_time_op (err : Bool) (rows : FactRows) (s a : String) (t : Nat) :
    Option Fact × FactRows :=
  if err then (none, [])
  else (get_fact_at_time rows s a t, rows)

/-! ### Lemmas about the fact store -/

theorem isCurrentRow_closeCurrent (s a : String) (t : Nat) (r : Fact) :
    isCurrentRow s a (closeCurrent s a t r) = false := by
  cases h : isCurrentRow s a r with
  | false => simp [closeCurrent, h]
  | true =>
    unfold closeCurrent
    rw [if_pos h]
    simp [isCurrentRow]

theorem filter_current_add_fact (rows : FactRows) (s a v : String) (t : Nat) :
    (add_fact rows s a v t).filter (isCurrentRow s a) = [⟨s, a, v, t, none⟩] := by
  unfold add_fact insertStmt closeStmt
  rw [List.filter_append]
  have h1 : (rows.map (closeCurrent s a t)).filter (isCurrentRow s a) = [] := by
    apply List.filter_eq_nil_iff.mpr
    intro r hr
    rcases List.mem_map.mp hr with ⟨r0, _, rfl⟩
    simp [isCurrentRow_closeCurrent]
  rw [h1]
  simp [isCurrentRow]

/-- Claim C1: for every sequence of `add_fact("user","x",v_i)` calls, after each
call exactly one row for the pair ("user","x") has a null `valid_until`, and
`get_current_fact("user","x")` returns the value of the most recent call.
(Quantifying over the prefix `vs` and the last call `(v, t)` covers the state
after each call of an arbitrary sequence.) -/
theorem C1_fact_versioning_single_current (vs : List (String × Nat)) (v : String) (t : Nat) :
    ((List.foldl (fun db p => add_fact db "user" "x" p.1 p.2) ([] : FactRows) (vs ++ [(v, t)])).filter
        (isCurrentRow "user" "x")).length = 1 ∧
    (get_current_fact
        (List.foldl (fun db p => add_fact db "user" "x" p.1 p.2) ([] : FactRows) (vs ++ [(v, t)]))
        "user" "x").map Fact.value = some v := by
  rw [List.foldl_append, List.foldl_cons, List.foldl_nil]
  constructor
  · rw [filter_current_add_fact]
    rfl
  · unfold get_current_fact
    rw [filter_current_add_fact]
    rfl

/-- Predicate written from the spec's words for claim C2: the row where
`valid_from <= T` and (`valid_until > T` or `valid_until IS NULL`).  (The
source SQL filter uses `valid_until >= ?`; this spec-side predicate is what the
returned row is compared against.) -/
def specTimePred (t : Nat) (r : Fact) : Prop :=
  r.valid_from ≤ t ∧ (r.valid_until = none ∨ ∃ u, r.valid_until = some u ∧ t < u)

/-- Scenario of claim C2: `add_fact("user","color","blue",t1)` then
`add_fact("user","color","red",t2)` starting from an empty store. -/
def colorDB (t1 t2 : Nat) : FactRows :=
  add_fact (add_fact [] "user" "color" "blue" t1) "user" "color" "red" t2

theorem colorDB_eq (t1 t2 : Nat) :
    colorDB t1 t2 =
      [⟨"user", "color", "blue", t1, some t2⟩, ⟨"user", "color", "red", t2, none⟩] := rfl

theorem gfat_colorDB_before (t1 t2 t : Nat) (h1 : t < t1) (h2 : t < t2) :
    get_fact_at_time (colorDB t1 t2) "user" "color" t = none := by
  have n1 : ¬ (t1 ≤ t) := by omega
  have n2 : ¬ (t2 ≤ t) := by omega
  rw [colorDB_eq]
  simp [get_fact_at_time, atTimeRow, n1, n2, topByValidFrom]

theorem gfat_colorDB_mid (t1 t2 t : Nat) (h1 : t1 ≤ t) (h2 : t < t2) :
    get_fact_at_time (colorDB t1 t2) "user" "color" t =
      some ⟨"user", "color", "blue", t1, some t2⟩ := by
  have a1 : t ≤ t2 := by omega
  have n2 : ¬ (t2 ≤ t) := by omega
  rw [colorDB_eq]
  simp [get_fact_at_time, atTimeRow, h1, a1, n2, topByValidFrom]

theorem gfat_colorDB_late (t1 t2 t : Nat) (h : t1 < t2) (h2 : t2 ≤ t) :
    get_fact_at_time (colorDB t1 t2) "user" "color" t =
      some ⟨"user", "color", "red", t2, none⟩ := by
  have a1 : t1 ≤ t := by omega
  rw [colorDB_eq]
  by_cases hb : t ≤ t2
  · simp [get_fact_at_time, atTimeRow, a1, h2, hb, topByValidFrom, h]
  · simp [get_fact_at_time, atTimeRow, a1, h2, hb, topByValidFrom]

/-- Claim C2: after `add_fact("user","color","blue",t1)` and
`add_fact("user","color","red",t2)` with `t1 < t2`, `get_fact_at_time` at `t`
returns blue for `t1 <= t < t2`, red for `t >= t2`, none for `t < t1`; the
returned row is exactly the row satisfying the predicate `valid_from <= T` and
(`valid_until > T` or null), and at most one row for the pair satisfies it. -/
theorem C2_point_in_time_correctness (t1 t2 t : Nat) (h : t1 < t2) :
    (t < t1 → get_fact_at_time (colorDB t1 t2) "user" "color" t = none) ∧
    (t1 ≤ t → t < t2 →
      (get_fact_at_time (colorDB t1 t2) "user" "color" t).map Fact.value = some "blue") ∧
    (t2 ≤ t →
      (get_fact_at_time (colorDB t1 t2) "user" "color" t).map Fact.value = some "red") ∧
    (∀ r, get_fact_at_time (colorDB t1 t2) "user" "color" t = some r →
      specTimePred t r ∧
        ∀ r' ∈ colorDB t1 t2, r'.subject = "user" → r'.attr = "color" →
          specTimePred t r' → r' = r) := by
  refine ⟨?_, ?_, ?_, ?_⟩
  · intro ht
    exact gfat_colorDB_before t1 t2 t ht (by omega)
  · intro ha hb
    rw [gfat_colorDB_mid t1 t2 t ha hb]
    rfl
  · intro ha
    rw [gfat_colorDB_late t1 t2 t h ha]
    rfl
  · intro r hr
    rcases Nat.lt_or_ge t t1 with ht | ht
    · rw [gfat_colorDB_before t1 t2 t ht (by omega)] at hr
      exact absurd hr (by simp)
    · rcases Nat.lt_or_ge t t2 with hm | hm
      · rw [gfat_colorDB_mid t1 t2 t ht hm] at hr
        obtain rfl := Option.some.inj hr
        refine ⟨⟨ht, Or.inr ⟨t2, rfl, hm⟩⟩, ?_⟩
        intro r' hmem _ _ hpred
        rw [colorDB_eq] at hmem
        rcases List.mem_cons.mp hmem with rfl | hmem'
        · rfl
        · rcases List.mem_cons.mp hmem' with rfl | hnil
          · exact absurd hpred.1 (by simp; omega)
          · exact absurd hnil (List.not_mem_nil _)
      · rw [gfat_colorDB_late t1 t2 t h hm] at hr
        obtain rfl := Option.some.inj hr
        refine ⟨⟨hm, Or.inl rfl⟩, ?_⟩
        intro r' hmem _ _ hpred
        rw [colorDB_eq] at hmem
        rcases List.mem_cons.mp hmem with rfl | hmem'
        · rcases hpred.2 with hnone | ⟨u, hu, htu⟩
          · exact absurd hnone (by simp)
          · obtain rfl := (Option.some.inj hu).symm
            omega
        · rcases List.mem_cons.mp hmem' with rfl | hnil
          · rfl
          · exact absurd hnil (List.not_mem_nil _)

/-- Witness for claim C2 at `t1 = 0`, `t2 = 1`, `t = 0`: the query inside the
first interval returns blue. -/
theorem C2_point_in_time_correctness_witness :
    (get_fact_at_time (colorDB 0 1) "user" "color" 0).map Fact.value = some "blue" :=
  (C2_point_in_time_correctness 0 1 0 (by decide)).2.1 (by decide) (by decide)

/-- Claim C7 counterexample: a storage error raised during `add_fact`'s
close-current UPDATE is absorbed and the store recreated, but the write then
returns `true` (the INSERT succeeds against the fresh store), not `false`. -/
theorem C7_counterexample :
    ¬ ((add_fact_op true false [] "user" "x" "v" 0).1 = false) := by decide

/-- Claim C7 (amended): a storage error during a fact-store operation is
absorbed (every operation is total — no exception reaches the caller) and the
store recreated; reads return none/empty; a write whose INSERT step errors
returns false; a write whose close-current UPDATE step alone errors returns
true, the INSERT having succeeded against the recreated store. -/
theorem C7_amended_storage_errors_absorbed (rows : FactRows) (s a v : String) (t : Nat) :
    get_current_fact_op true rows s a = (none, []) ∧
    get_fact_history_op true rows s a = ([], []) ∧
    get_fact_at_time_op true rows s a t = (none, []) ∧
    (∀ e1, add_fact_op e1 true rows s a v t = (false, [])) ∧
    add_fact_op true false rows s a v t = (true, [⟨s, a, v, t, none⟩]) := by
  refine ⟨rfl, rfl, rfl, ?_, rfl⟩
  intro e1
  cases e1 <;> rfl

/-! ## Credential pool (`src/brain/api_manager.py`)

The `api_keys` SQLite table.  `status` is a TEXT column; the code writes only
the strings active and rate_limited, the spec names invalid as the terminal
state for a bad credential. -/
inductive KeyStatus
  | active
  | rate_limited
  | invalid
  deriving Repr, DecidableEq

/-- A stored `rate_limit_reset` string, modelled by whether any of the
timestamp formats accepted by `_refresh_rate_limited_keys` (the three
`strptime` formats, then `fromisoformat`) parses it: `stamp t` is a string
that parses to time `t`, `junk` is a string none of the formats parse
(the empty string is also treated like a missing value by the code). -/
inductive ResetVal
  | stamp (t : Nat)
  | junk
  deriving Repr, DecidableEq

/-- Net effect of the parse cascade in `_refresh_rate_limited_keys`. -/
def parseReset : ResetVal → Option Nat
  | .stamp t => some t
  | .junk => none

/-- One row of the `api_keys` table.  `created_at` is never read and omitted. -/
structure ApiKeyRow where
  id : Nat
  service : String
  api_key : String
  status : KeyStatus
  rate_limit_reset : Option ResetVal
  usage_count : Nat
  last_used : Option Nat
  priority : Int
  deriving Repr, DecidableEq

/-- The `api_keys` table: rows plus the next AUTOINCREMENT-style row id. -/
structure ApiPool where
  rows : List ApiKeyRow
  nextId : Nat
  deriving Repr, DecidableEq

/-- APIManager._refresh_rate_limited_keys, per row: a rate_limited row of the
service whose stored reset string parses to a time at or before `now` becomes
active with the reset cleared; a null, unparseable, or future reset leaves the
row untouched (the code does `continue`). -/
def refreshRow (service : String) (now : Nat) (r : ApiKeyRow) : ApiKeyRow :=
  if r.service == service && r.status == KeyStatus.rate_limited then
    match r.rate_limit_reset with
    | none => r
    | some rv =>
      match parseReset rv with
      | none => r
      | some t =>
        if t ≤ now then { r with status := KeyStatus.active, rate_limit_reset := none }
        else r
  else r

/-- APIManager._refresh_rate_limited_keys over the whole table. -/
def refresh_rate_limited_keys (service : String) (now : Nat) (p : ApiPool) : ApiPool :=
  { p with rows := p.rows.map (refreshRow service now) }

/-- APIManager.add_api_key: rejects (no-op, returns false) when any row in the
whole table already stores this secret (`SELECT id FROM api_keys WHERE api_key = ?`),
else inserts a row with the schema defaults status='active', usage_count=0,
rate_limit_reset/last_used NULL and returns true. -/
def add_api_key (p : ApiPool) (service api_key : String) (priority : Int) :
    Bool × ApiPool :=
  if p.rows.any (fun r => r.api_key == api_key) then (false, p)
  else
    (true,
     { rows := p.rows ++
         [⟨p.nextId, service, api_key, KeyStatus.active, none, 0, none, priority⟩],
       nextId := p.nextId + 1 })

/-- Comparison underlying `ORDER BY priority ASC, usage_count ASC`. -/
def keyLE (a b : ApiKeyRow) : Bool :=
  decide (a.priority < b.priority ∨ (a.priority = b.priority ∧ a.usage_count ≤ b.usage_count))

/-- Stable insertion into a list already sorted by `keyLE`. -/
def insertByKey (r : ApiKeyRow) : List ApiKeyRow → List ApiKeyRow
  | [] => [r]
  | x :: xs => if keyLE x r then x :: insertByKey r xs else r :: x :: xs

/-- The `ORDER BY priority ASC, usage_count ASC` clause: stable sort. -/
def orderByPriorityUsage (l : List ApiKeyRow) : List ApiKeyRow :=
  l.foldr insertByKey []

/-- The candidate list of `APIManager.get_next_available_key`:
`SELECT ... WHERE service = ? AND status = 'active' ORDER BY priority ASC, usage_count ASC`. -/
def activeCandidates (service : String) (p : ApiPool) : List ApiKeyRow :=
  orderByPriorityUsage
    (p.rows.filter (fun r => r.service == service && r.status == KeyStatus.active))

/-- Usage bookkeeping of `get_next_available_key`:
`UPDATE api_keys SET usage_count = usage_count + 1, last_used = CURRENT_TIMESTAMP WHERE id = ?`. -/
def bumpUsage (now keyId : Nat) (r : ApiKeyRow) : ApiKeyRow :=
  if r.id == keyId then { r with usage_count := r.usage_count + 1, last_used := some now }
  else r

/-- APIManager.get_next_available_key: refresh expired cooldowns, take the
first active row of the service in (priority ASC, usage_count ASC) order,
increment its usage_count and stamp last_used, and return its secret;
`None` when no active row exists. -/
def get_next_available_key (p : ApiPool) (service : String) (now : Nat) :
    Option String × ApiPool :=
  match (activeCandidates service (refresh_rate_limited_keys service now p)).head? with
  | none => (none, refresh_rate_limited_keys service now p)
  | some r =>
    (some r.api_key,
     { refresh_rate_limited_keys service now p with
       rows := (refresh_rate_limited_keys service now p).rows.map (bumpUsage now r.id) })

/-- APIManager.mark_key_rate_limited: every row holding this secret becomes
rate_limited with the reset time stored via
`strftime("%Y-%m-%d %H:%M:%S")` — a string the refresh pass parses back. -/
def mark_key_rate_limited (p : ApiPool) (api_key : String) (reset : Nat) : ApiPool :=
  { p with
    rows := p.rows.map (fun r =>
      if r.api_key == api_key then
        { r with status := KeyStatus.rate_limited, rate_limit_reset := some (ResetVal.stamp reset) }
      else r) }

/-- A fresh `api_keys` table (SQLite assigns row ids from 1). -/
def emptyPool : ApiPool := ⟨[], 1⟩

/-- Folding a sequence of `add_api_key` calls over a pool. -/
def runAdds (ops : List (String × String × Int)) (p : ApiPool) : ApiPool :=
  ops.foldl (fun q o => (add_api_key q o.1 o.2.1 o.2.2).2) p

theorem add_api_key_preserves_nodup (p : ApiPool) (service k : String) (pr : Int)
    (h : (p.rows.map ApiKeyRow.api_key).Nodup) :
    (((add_api_key p service k pr).2).rows.map ApiKeyRow.api_key).Nodup := by
  unfold add_api_key
  by_cases hex : p.rows.any (fun r => r.api_key == k) = true
  · simpa [hex] using h
  · simp only [hex]
    simp only [Bool.false_eq_true, if_false, List.map_append, List.map_cons, List.map_nil]
    rw [List.nodup_append]
    refine ⟨h, List.nodup_singleton _, ?_⟩
    intro x hx hx1
    simp only [List.mem_singleton] at hx1
    subst hx1
    rcases List.mem_map.mp hx with ⟨r, hr, hrk⟩
    simp only [List.any_eq_true, not_exists, not_and] at hex
    have := hex r hr
    simp [hrk] at this

theorem runAdds_nodup (ops : List (String × String × Int)) (p : ApiPool)
    (h : (p.rows.map ApiKeyRow.api_key).Nodup) :
    ((runAdds ops p).rows.map ApiKeyRow.api_key).Nodup := by
  induction ops generalizing p with
  | nil => exact h
  | cons o rest ih =>
    exact ih _ (add_api_key_preserves_nodup p o.1 o.2.1 o.2.2 h)

/-- Claim C4: through any sequence of `add_api_key` calls a given secret is
stored at most once (the secret column is duplicate-free); a second add of a
present secret returns false leaving the pool unchanged (same rows, same
next id), and an add of an absent secret returns true. -/
theorem C4_secret_uniqueness (ops : List (String × String × Int)) (s k : String) (pr : Int) :
    ((runAdds ops emptyPool).rows.map ApiKeyRow.api_key).Nodup ∧
    ((∃ r ∈ (runAdds ops emptyPool).rows, r.api_key = k) →
      add_api_key (runAdds ops emptyPool) s k pr = (false, runAdds ops emptyPool)) ∧
    ((∀ r ∈ (runAdds ops emptyPool).rows, r.api_key ≠ k) →
      (add_api_key (runAdds ops emptyPool) s k pr).1 = true) := by
  refine ⟨runAdds_nodup ops emptyPool (by simp [emptyPool]), ?_, ?_⟩
  · intro hex
    have hany : (runAdds ops emptyPool).rows.any (fun r => r.api_key == k) = true := by
      rcases hex with ⟨r, hr, hrk⟩
      simp only [List.any_eq_true]
      exact ⟨r, hr, by simp [hrk]⟩
    simp [add_api_key, hany]
  · intro habs
    have hany : (runAdds ops emptyPool).rows.any (fun r => r.api_key == k) = false := by
      simp only [List.any_eq_false]
      intro r hr
      simpa using habs r hr
    simp [add_api_key, hany]

/-- Witness for claim C4: after adding the same secret twice the pool holds it
once, the second add having returned false. -/
theorem C4_secret_uniqueness_witness :
    add_api_key (runAdds [("openai", "sk-a", 1)] emptyPool) "openai" "sk-a" 2 =
      (false, runAdds [("openai", "sk-a", 1)] emptyPool) :=
  (C4_secret_uniqueness [("openai", "sk-a", 1)] "openai" "sk-a" 2).2.1
    ⟨⟨1, "openai", "sk-a", KeyStatus.active, none, 0, none, 1⟩, by decide, rfl⟩

theorem keyLE_refl (a : ApiKeyRow) : keyLE a a = true := by
  simp [keyLE]

theorem keyLE_total (a b : ApiKeyRow) : keyLE a b = true ∨ keyLE b a = true := by
  simp only [keyLE, decide_eq_true_eq]
  omega

theorem keyLE_trans (a b c : ApiKeyRow) (h1 : keyLE a b = true) (h2 : keyLE b c = true) :
    keyLE a c = true := by
  simp only [keyLE, decide_eq_true_eq] at h1 h2 ⊢
  omega

theorem insertByKey_head (r : ApiKeyRow) (l : List ApiKeyRow) :
    (insertByKey r l).head? =
      some (match l with
            | [] => r
            | x :: _ => if keyLE x r then x else r) := by
  cases l with
  | nil => rfl
  | cons x xs =>
    unfold insertByKey
    by_cases h : keyLE x r = true <;> simp [h]

theorem mem_insertByKey (y r : ApiKeyRow) (l : List ApiKeyRow) :
    y ∈ insertByKey r l ↔ y = r ∨ y ∈ l := by
  induction l with
  | nil => simp [insertByKey]
  | cons x xs ih =>
    unfold insertByKey
    by_cases h : keyLE x r = true
    · simp only [h, if_true, List.mem_cons, ih]
      tauto
    · simp only [h, Bool.false_eq_true, if_false, List.mem_cons]

theorem mem_orderByPriorityUsage (y : ApiKeyRow) (l : List ApiKeyRow) :
    y ∈ orderByPriorityUsage l ↔ y ∈ l := by
  induction l with
  | nil => simp [orderByPriorityUsage]
  | cons x xs ih =>
    show y ∈ insertByKey x (orderByPriorityUsage xs) ↔ _
    rw [mem_insertByKey]
    simp only [List.mem_cons, ih]

/-- The head of the sorted candidate list is minimal for `keyLE` among the
unsorted rows. -/
theorem head_orderByPriorityUsage_min (l : List ApiKeyRow) :
    ∀ m : ApiKeyRow, (orderByPriorityUsage l).head? = some m → ∀ x ∈ l, keyLE m x = true := by
  induction l with
  | nil =>
    intro m hm
    simp [orderByPriorityUsage] at hm
  | cons a l ih =>
    intro m hm x hx
    have hm' : (insertByKey a (orderByPriorityUsage l)).head? = some m := hm
    cases hsort : orderByPriorityUsage l with
    | nil =>
      rw [hsort] at hm'
      simp only [insertByKey, List.head?_cons, Option.some.injEq] at hm'
      have hl : l = [] := by
        cases hl2 : l with
        | nil => rfl
        | cons b bs =>
          exfalso
          have hb : b ∈ orderByPriorityUsage l := by
            rw [hl2]
            exact (mem_orderByPriorityUsage b (b :: bs)).mpr (List.mem_cons_self b bs)
          rw [hsort] at hb
          exact absurd hb (List.not_mem_nil b)
      subst hl
      rcases List.mem_cons.mp hx with rfl | hx'
      · rw [← hm']
        exact keyLE_refl x
      · exact absurd hx' (List.not_mem_nil x)
    | cons t ts =>
      rw [hsort] at hm'
      have hmin : ∀ y ∈ l, keyLE t y = true := ih t (by rw [hsort]; rfl)
      by_cases hta : keyLE t a = true
      · have hmt : t = m := by
          simpa [insertByKey, hta] using hm'
        rcases List.mem_cons.mp hx with rfl | hx'
        · rw [← hmt]
          exact hta
        · rw [← hmt]
          exact hmin x hx'
      · have hma : a = m := by
          simpa [insertByKey, hta] using hm'
        have hat : keyLE a t = true := by
          rcases keyLE_total t a with h1 | h1
          · exact absurd h1 hta
          · exact h1
        rcases List.mem_cons.mp hx with rfl | hx'
        · rw [← hma]
          exact keyLE_refl x
        · rw [← hma]
          exact keyLE_trans a t x hat (hmin x hx')

/-- Concrete pool of spec property P2: three active credentials with
priorities 3, 1, 2 and usage_count 0. -/
def poolP2 : ApiPool :=
  ⟨[⟨1, "openai", "k3", KeyStatus.active, none, 0, none, 3⟩,
    ⟨2, "openai", "k1", KeyStatus.active, none, 0, none, 1⟩,
    ⟨3, "openai", "k2", KeyStatus.active, none, 0, none, 2⟩], 4⟩

/-- Concrete pool with two same-priority credentials whose usage counts
differ: the heavily used one and its peer. -/
def poolPeers : ApiPool :=
  ⟨[⟨1, "openai", "heavy", KeyStatus.active, none, 5, none, 1⟩,
    ⟨2, "openai", "peer", KeyStatus.active, none, 3, none, 1⟩], 3⟩

/-- Claim C5: a successful selection returns the secret of the first active
row of the service in (priority ASC, usage_count ASC) order — minimal in that
order among all active rows — and the updated pool bumps that row's
usage_count and last_used; concretely, with priorities [3,1,2] the priority-1
credential is selected (its usage_count becoming 1, last_used stamped), and a
same-priority peer with lower usage_count is preferred over a heavier-used one. -/
theorem C5_selection_order (p : ApiPool) (service : String) (now : Nat) (key : String)
    (p2 : ApiPool) (hsel : get_next_available_key p service now = (some key, p2)) :
    (∃ r, (activeCandidates service (refresh_rate_limited_keys service now p)).head? = some r ∧
      r.api_key = key ∧ r.service = service ∧ r.status = KeyStatus.active ∧
      r ∈ (refresh_rate_limited_keys service now p).rows ∧
      (∀ q ∈ (refresh_rate_limited_keys service now p).rows,
        q.service = service → q.status = KeyStatus.active →
        r.priority < q.priority ∨ (r.priority = q.priority ∧ r.usage_count ≤ q.usage_count)) ∧
      p2.rows = (refresh_rate_limited_keys service now p).rows.map (bumpUsage now r.id)) ∧
    (get_next_available_key poolP2 "openai" 7).1 = some "k1" ∧
    ((get_next_available_key poolP2 "openai" 7).2).rows =
      [⟨1, "openai", "k3", KeyStatus.active, none, 0, none, 3⟩,
       ⟨2, "openai", "k1", KeyStatus.active, none, 1, some 7, 1⟩,
       ⟨3, "openai", "k2", KeyStatus.active, none, 0, none, 2⟩] ∧
    (get_next_available_key poolPeers "openai" 7).1 = some "peer" := by
  refine ⟨?_, by decide, by decide, by decide⟩
  unfold get_next_available_key at hsel
  split at hsel
  next hcand =>
    exact absurd (congrArg Prod.fst hsel) (by simp)
  next r hcand =>
    have hkey : r.api_key = key := by
      have h1 := congrArg Prod.fst hsel
      simpa using h1
    have hp2 : p2.rows = (refresh_rate_limited_keys service now p).rows.map (bumpUsage now r.id) := by
      have h2 := congrArg Prod.snd hsel
      dsimp only at h2
      rw [← h2]
    have hmem : r ∈ activeCandidates service (refresh_rate_limited_keys service now p) :=
      List.mem_of_mem_head? hcand
    have hmemf := (mem_orderByPriorityUsage r _).mp hmem
    have hprops := List.mem_filter.mp hmemf
    have hserv : r.service = service := by
      have hb := hprops.2
      simp only [Bool.and_eq_true, beq_iff_eq] at hb
      exact hb.1
    have hact : r.status = KeyStatus.active := by
      have hb := hprops.2
      simp only [Bool.and_eq_true, beq_iff_eq] at hb
      exact hb.2
    refine ⟨r, hcand, hkey, hserv, hact, hprops.1, ?_, hp2⟩
    intro q hq hqs hqa
    have hqf : q ∈ (refresh_rate_limited_keys service now p).rows.filter
        (fun r => r.service == service && r.status == KeyStatus.active) :=
      List.mem_filter.mpr ⟨hq, by simp [hqs, hqa]⟩
    have hle := head_orderByPriorityUsage_min _ r hcand q hqf
    simp only [keyLE, decide_eq_true_eq] at hle
    exact hle

/-- Witness for claim C5 at the concrete P2 pool. -/
theorem C5_selection_order_witness :
    ∃ r, (activeCandidates "openai" (refresh_rate_limited_keys "openai" 7 poolP2)).head? = some r ∧
      r.api_key = "k1" ∧ r.service = "openai" ∧ r.status = KeyStatus.active ∧
      r ∈ (refresh_rate_limited_keys "openai" 7 poolP2).rows ∧
      (∀ q ∈ (refresh_rate_limited_keys "openai" 7 poolP2).rows,
        q.service = "openai" → q.status = KeyStatus.active →
        r.priority < q.priority ∨ (r.priority = q.priority ∧ r.usage_count ≤ q.usage_count)) ∧
      ((get_next_available_key poolP2 "openai" 7).2).rows =
        (refresh_rate_limited_keys "openai" 7 poolP2).rows.map (bumpUsage 7 r.id) :=
  (C5_selection_order poolP2 "openai" 7 "k1" (get_next_available_key poolP2 "openai" 7).2
    (by decide)).1

/-- Claim C8: the refresh pass run at the head of every selection-affecting
read reactivates every rate_limited credential of the service whose stored,
parseable cooldown timestamp is at or before the current time, clearing the
timestamp; hence a credential rate-limited with reset time now - 1 (stored by
mark_key_rate_limited in the strftime format the refresh pass parses) is
selected on the very next selection attempt. -/
theorem C8_cooldown_expiry (service : String) (now t : Nat) (r : ApiKeyRow)
    (hs : r.service = service) (hst : r.status = KeyStatus.rate_limited)
    (hr : r.rate_limit_reset = some (ResetVal.stamp t)) (ht : t ≤ now) :
    refreshRow service now r = { r with status := KeyStatus.active, rate_limit_reset := none } ∧
    (∀ p : ApiPool, r ∈ p.rows →
      { r with status := KeyStatus.active, rate_limit_reset := none } ∈
        (refresh_rate_limited_keys service now p).rows) ∧
    (get_next_available_key
        (mark_key_rate_limited (add_api_key emptyPool "openai" "sk-test" 1).2 "sk-test" 99)
        "openai" 100).1 = some "sk-test" := by
  have hrow : refreshRow service now r =
      { r with status := KeyStatus.active, rate_limit_reset := none } := by
    unfold refreshRow
    rw [if_pos (by simp [hs, hst]), hr]
    simp [parseReset, ht]
  refine ⟨hrow, ?_, by decide⟩
  intro p hp
  unfold refresh_rate_limited_keys
  simp only [List.mem_map]
  exact ⟨r, hp, hrow⟩

/-- Witness for claim C8 at a concrete rate-limited row whose reset time 99
has passed at now = 100. -/
theorem C8_cooldown_expiry_witness :
    refreshRow "openai" 100
        ⟨1, "openai", "sk-test", KeyStatus.rate_limited, some (ResetVal.stamp 99), 0, none, 1⟩ =
      ⟨1, "openai", "sk-test", KeyStatus.active, none, 0, none, 1⟩ :=
  (C8_cooldown_expiry "openai" 100 99
    ⟨1, "openai", "sk-test", KeyStatus.rate_limited, some (ResetVal.stamp 99), 0, none, 1⟩
    rfl rfl rfl (by decide)).1

/-- Claim C10: a rate_limited credential whose stored cooldown timestamp is
null or unparseable by every accepted format is skipped by the refresh pass —
row fully unchanged, for every current time — so it stays rate_limited and is
never among the active selection candidates of any pool. -/
theorem C10_unparseable_cooldown_permanent (service : String) (now : Nat) (r : ApiKeyRow)
    (hst : r.status = KeyStatus.rate_limited)
    (hr : r.rate_limit_reset = none ∨ r.rate_limit_reset = some ResetVal.junk) :
    refreshRow service now r = r ∧
    ∀ p : ApiPool, r ∉ activeCandidates service p := by
  constructor
  · unfold refreshRow
    rcases hr with hr | hr <;> rw [hr] <;> by_cases hsv : r.service == service &&
      r.status == KeyStatus.rate_limited
    · rw [if_pos hsv]
    · rw [if_neg (by simp_all)]
    · rw [if_pos hsv]
      simp [parseReset]
    · rw [if_neg (by simp_all)]
  · intro p hmem
    have hf := (mem_orderByPriorityUsage r _).mp hmem
    have := (List.mem_filter.mp hf).2
    rw [hst] at this
    simp at this

/-- Witness for claim C10 at a concrete junk-timestamp row. -/
theorem C10_unparseable_cooldown_permanent_witness :
    refreshRow "openai" 1000000
        ⟨1, "openai", "sk-j", KeyStatus.rate_limited, some ResetVal.junk, 0, none, 1⟩ =
      ⟨1, "openai", "sk-j", KeyStatus.rate_limited, some ResetVal.junk, 0, none, 1⟩ :=
  (C10_unparseable_cooldown_permanent "openai" 1000000
    ⟨1, "openai", "sk-j", KeyStatus.rate_limited, some ResetVal.junk, 0, none, 1⟩
    rfl (Or.inr rfl)).1

/-! ## In-memory key rotation state (`src/brain/llm_utils/key_manager.py`)

One entry of `KeyManager.keys_state`: the raw key string, the cooldown expiry
(`cooldown_until`, initialised to 0.0 by `OpenAIClient.__init__`) and the
`bad` flag.  `time.time()` values are modelled as `Nat` seconds. -/
structure KMKey where
  key : String
  cooldown_until : Nat
  bad : Bool
  deriving Repr, DecidableEq

/-- The shared scan of `get_available_key_index` and `rotate_next`: walk a
list of offsets, index `(current_index + offset) % n`, skip entries marked
bad, return the first index whose cooldown has expired
(`time.time() >= cooldown_until`). -/
def scanAvail (now : Nat) (keys : List KMKey) (cur : Nat) : List Nat → Option Nat
  | [] => none
  | offset :: rest =>
    match keys[(cur + offset) % keys.length]? with
    | none => scanAvail now keys cur rest
    | some st =>
      if st.bad then scanAvail now keys cur rest
      else if st.cooldown_until ≤ now then some ((cur + offset) % keys.length)
      else scanAvail now keys cur rest

/-- KeyManager.get_available_key_index: offsets 0 .. n-1 from current_index. -/
def get_available_key_index (now : Nat) (keys : List KMKey) (cur : Nat) : Option Nat :=
  scanAvail now keys cur (List.range keys.length)

/-- KeyManager.rotate_next: offsets 1 .. n from current_index; `some cand`
models returning True with current_index set to cand, `none` models False. -/
def rotate_next (now : Nat) (keys : List KMKey) (cur : Nat) : Option Nat :=
  scanAvail now keys cur ((List.range keys.length).map (fun i => i + 1))

/-- In-place update of the entry at one index (Python `self.keys_state[idx]`). -/
def modifyIdx (f : KMKey → KMKey) : Nat → List KMKey → List KMKey
  | _, [] => []
  | 0, st :: rest => f st :: rest
  | n + 1, st :: rest => st :: modifyIdx f n rest

/-- KeyManager.mark_rate_limited: set the entry's cooldown to now + cooldown
(`default_cooldown` when the caller passes none). -/
def km_mark_rate_limited (now cooldown idx : Nat) (keys : List KMKey) : List KMKey :=
  modifyIdx (fun st => { st with cooldown_until := now + cooldown }) idx keys

/-- KeyManager.mark_bad: set the entry's bad flag (removed from rotation). -/
def km_mark_bad (idx : Nat) (keys : List KMKey) : List KMKey :=
  modifyIdx (fun st => { st with bad := true }) idx keys

theorem scanAvail_some (now : Nat) (keys : List KMKey) (cur : Nat) (offs : List Nat)
    (idx : Nat) (h : scanAvail now keys cur offs = some idx) :
    ∃ st, keys[idx]? = some st ∧ st.bad = false ∧ st.cooldown_until ≤ now := by
  induction offs with
  | nil => simp [scanAvail] at h
  | cons o rest ih =>
    unfold scanAvail at h
    split at h
    next hk => exact ih h
    next st hk =>
      split at h
      next hb => exact ih h
      next hb =>
        split at h
        next hc =>
          obtain rfl := Option.some.inj h
          exact ⟨st, hk, by simpa using hb, hc⟩
        next hc => exact ih h

theorem modifyIdx_preserves_bad (f : KMKey → KMKey)
    (hf : ∀ st, (f st).bad = st.bad) (idx : Nat) (keys : List KMKey) (i : Nat) :
    ((modifyIdx f idx keys)[i]?).map KMKey.bad = (keys[i]?).map KMKey.bad := by
  induction keys generalizing idx i with
  | nil => simp [modifyIdx]
  | cons st rest ih =>
    cases idx with
    | zero =>
      cases i with
      | zero => simp [modifyIdx, hf]
      | succ j => simp [modifyIdx]
    | succ n =>
      cases i with
      | zero => simp [modifyIdx]
      | succ j =>
        simp only [modifyIdx, List.getElem?_cons_succ]
        exact ih n j

/-- Claim C9: a credential marked bad (in-memory) / invalid (pool) is never
returned by selection and never automatically reverted: (1) any index returned
by `get_available_key_index` or by `rotate_next` holds a non-bad entry; (2)
when the only non-cooling entry is bad, selection returns none (exhaustion)
rather than that entry; (3) `mark_rate_limited` never clears a bad flag; (4)
in the durable pool, the refresh pass leaves an invalid row untouched and
every selected secret comes from an active row. -/
theorem C9_invalid_never_selected :
    (∀ (now : Nat) (keys : List KMKey) (cur idx : Nat),
      get_available_key_index now keys cur = some idx →
      ∃ st, keys[idx]? = some st ∧ st.bad = false ∧ st.cooldown_until ≤ now) ∧
    (∀ (now : Nat) (keys : List KMKey) (cur idx : Nat),
      rotate_next now keys cur = some idx →
      ∃ st, keys[idx]? = some st ∧ st.bad = false ∧ st.cooldown_until ≤ now) ∧
    get_available_key_index 10 [⟨"bad-key", 0, true⟩, ⟨"cooling-key", 1000, false⟩] 0 = none ∧
    (∀ (now cooldown idx : Nat) (keys : List KMKey) (i : Nat),
      ((km_mark_rate_limited now cooldown idx keys)[i]?).map KMKey.bad =
        (keys[i]?).map KMKey.bad) ∧
    (∀ (service : String) (now : Nat) (r : ApiKeyRow),
      r.status = KeyStatus.invalid → refreshRow service now r = r) ∧
    (∀ (p : ApiPool) (service : String) (now : Nat) (key : String) (p2 : ApiPool),
      get_next_available_key p service now = (some key, p2) →
      ∃ r ∈ (refresh_rate_limited_keys service now p).rows,
        r.api_key = key ∧ r.status = KeyStatus.active) := by
  refine ⟨?_, ?_, by decide, ?_, ?_, ?_⟩
  · intro now keys cur idx h
    exact scanAvail_some now keys cur _ idx h
  · intro now keys cur idx h
    exact scanAvail_some now keys cur _ idx h
  · intro now cooldown idx keys i
    unfold km_mark_rate_limited
    exact modifyIdx_preserves_bad (fun st => { st with cooldown_until := now + cooldown })
      (fun st => rfl) idx keys i
  · intro service now r hst
    unfold refreshRow
    by_cases hsv : r.service == service && r.status == KeyStatus.rate_limited
    · rw [hst] at hsv
      simp at hsv
    · rw [if_neg (by simp_all)]
  · intro p service now key p2 hsel
    unfold get_next_available_key at hsel
    split at hsel
    next hcand =>
      exact absurd (congrArg Prod.fst hsel) (by simp)
    next r hcand =>
      have hkey : r.api_key = key := by
        have h1 := congrArg Prod.fst hsel
        simpa using h1
      have hmem : r ∈ activeCandidates service (refresh_rate_limited_keys service now p) :=
        List.mem_of_mem_head? hcand
      have hmemf := (mem_orderByPriorityUsage r _).mp hmem
      have hprops := List.mem_filter.mp hmemf
      have hb := hprops.2
      simp only [Bool.and_eq_true, beq_iff_eq] at hb
      exact ⟨r, hprops.1, hkey, hb.2⟩

/-- Witness for claim C9: applying its selection part at a concrete state
where the first key is bad and the second is available yields index 1. -/
theorem C9_invalid_never_selected_witness :
    ∃ st, ([⟨"bad-key", 0, true⟩, ⟨"good-key", 0, false⟩] : List KMKey)[1]? = some st ∧
      st.bad = false ∧ st.cooldown_until ≤ 10 :=
  C9_invalid_never_selected.1 10 [⟨"bad-key", 0, true⟩, ⟨"good-key", 0, false⟩] 0 1 (by decide)

/-! ## Retry loop of `OpenAIClient.chat_completion`
(`src/brain/llm_clients/openai_client.py`)

The classified outcome of one remote dispatch, matching the handler arms of
the source: success, `RateLimitError`, `APIError`/`APIConnectionError`/
`APITimeoutError`, `AuthenticationError`, `BadRequestError`, and the generic
`Exception` arm. -/
inductive Outcome
  | success
  | rateLimit
  | apiErr
  | authErr
  | badRequest
  | unexpected
  deriving Repr, DecidableEq

/-- State of the `while True` loop: the in-memory key entries, the key
manager's current_index, the wall clock in seconds, and the number of remote
dispatches performed so far. -/
structure LoopState where
  keys : List KMKey
  cur : Nat
  time : Nat
  attempts : Nat
  deriving Repr, DecidableEq

/-- Result of one loop iteration: continue looping, return a response, or
raise (the selection RuntimeError, the propagated BadRequestError, or the
exhaustion RuntimeError). -/
inductive LoopOutcome
  | running (s : LoopState)
  | ok (s : LoopState)
  | errNoKeys (s : LoopState)
  | errBadRequest (s : LoopState)
  | errExhausted (s : LoopState)
  deriving Repr, DecidableEq

/-- Python `min((st["cooldown_until"] for st in keys_state if not st["bad"]), default=None)`. -/
def minCooldownNonBad : List KMKey → Option Nat
  | [] => none
  | st :: rest =>
    let m := minCooldownNonBad rest
    if st.bad then m
    else
      match m with
      | none => some st.cooldown_until
      | some v => some (min st.cooldown_until v)

/-- Tail of a failed iteration: `rotate_next`, and on failure the exhaustion
handling — sleep `max(1, soonest - now) + 0.5` until the soonest non-bad
cooldown when one lies ahead (Python truthiness: a soonest of exactly 0 also
raises), else raise the exhaustion RuntimeError.  `time.sleep` advances the
clock by the waited amount, rounded up to whole seconds. -/
def afterFailure (s : LoopState) : LoopOutcome :=
  match rotate_next s.time s.keys s.cur with
  | some cand => .running ⟨s.keys, cand, s.time + 1, s.attempts⟩
  | none =>
    match minCooldownNonBad s.keys with
    | none => .errExhausted s
    | some soonest =>
      if soonest ≠ 0 ∧ s.time < soonest then
        .running ⟨s.keys, s.cur, s.time + max 1 (soonest - s.time) + 1, s.attempts⟩
      else .errExhausted s

/-- One iteration of the `while True` retry loop of
`OpenAIClient.chat_completion`, the remote call's classified outcome supplied
by `ds` as a function of the dispatch counter.  Select a key (raising when
none is available), dispatch once (the inner `for attempt` loop of the source
runs exactly one iteration: every handler returns, breaks, or raises), then
classify: success returns, BadRequestError propagates immediately with no
marking and no rotation, RateLimitError marks a 60 s cooldown, service/API/
timeout errors 10 s, AuthenticationError marks the key bad, any other
exception 5 s; all marking arms fall through to rotation/exhaustion. -/
def engineStep (ds : Nat → Outcome) (s : LoopState) : LoopOutcome :=
  match get_available_key_index s.time s.keys s.cur with
  | none => .errNoKeys s
  | some idx =>
    match ds s.attempts with
    | .success => .ok ⟨s.keys, idx, s.time, s.attempts + 1⟩
    | .badRequest => .errBadRequest ⟨s.keys, idx, s.time, s.attempts + 1⟩
    | .rateLimit => afterFailure ⟨km_mark_rate_limited s.time 60 idx s.keys, idx, s.time, s.attempts + 1⟩
    | .apiErr => afterFailure ⟨km_mark_rate_limited s.time 10 idx s.keys, idx, s.time, s.attempts + 1⟩
    | .authErr => afterFailure ⟨km_mark_bad idx s.keys, idx, s.time, s.attempts + 1⟩
    | .unexpected => afterFailure ⟨km_mark_rate_limited s.time 5 idx s.keys, idx, s.time, s.attempts + 1⟩

/-- Run the loop for at most `n` iterations; `running` means the loop has not
yet produced any outcome after `n` iterations. -/
def engineRun (ds : Nat → Outcome) : Nat → LoopState → LoopOutcome
  | 0, s => .running s
  | n + 1, s =>
    match engineStep ds s with
    | .running s2 => engineRun ds n s2
    | r => r

/-- A remote service that rate-limits every dispatch. -/
def rlDispatch : Nat → Outcome := fun _ => Outcome.rateLimit

/-- Loop state with a single non-bad key whose cooldown is `c`, at time `t`,
after `a` dispatches. -/
def c3State (c t a : Nat) : LoopState := ⟨[⟨"sk-0", c, false⟩], 0, t, a⟩

theorem engineStep_c3 (c t a : Nat) (hct : c ≤ t) :
    engineStep rlDispatch (c3State c t a) =
      LoopOutcome.running (c3State (t + 60) (t + 61) (a + 1)) := by
  have hsel : get_available_key_index t [⟨"sk-0", c, false⟩] 0 = some 0 := by
    simp [get_available_key_index, scanAvail, hct]
  have hmark : km_mark_rate_limited t 60 0 [⟨"sk-0", c, false⟩] = [⟨"sk-0", t + 60, false⟩] := rfl
  have hrot : rotate_next t [⟨"sk-0", t + 60, false⟩] 0 = none := by
    simp [rotate_next, scanAvail]
  have hmin : minCooldownNonBad [⟨"sk-0", t + 60, false⟩] = some (t + 60) := rfl
  have hcond : t + 60 ≠ 0 ∧ t < t + 60 := by omega
  have htime : t + max 1 (t + 60 - t) + 1 = t + 61 := by omega
  simp only [engineStep, c3State, rlDispatch, hsel, hmark, afterFailure, hrot, hmin]
  rw [if_pos hcond, htime]

theorem engineRun_c3 (n : Nat) :
    ∀ c t a, c ≤ t →
      ∃ c2 t2, engineRun rlDispatch n (c3State c t a) =
        LoopOutcome.running (c3State c2 t2 (a + n)) ∧ c2 ≤ t2 := by
  induction n with
  | zero =>
    intro c t a hct
    exact ⟨c, t, by simp [engineRun], hct⟩
  | succ m ih =>
    intro c t a hct
    obtain ⟨c2, t2, hrun, hle⟩ := ih (t + 60) (t + 61) (a + 1) (by omega)
    have hone : engineRun rlDispatch (m + 1) (c3State c t a) =
        engineRun rlDispatch m (c3State (t + 60) (t + 61) (a + 1)) := by
      show (match engineStep rlDispatch (c3State c t a) with
            | LoopOutcome.running s2 => engineRun rlDispatch m s2
            | r => r) = _
      rw [engineStep_c3 c t a hct]
    have hab : a + 1 + m = a + (m + 1) := by omega
    rw [hab] at hrun
    exact ⟨c2, t2, hone.trans hrun, hle⟩

/-- Claim C3 (the code lacks the bound the spec mandates): with a single
non-bad credential and a remote service that rate-limits every dispatch, the
retry loop of `chat_completion` never reaches any terminal outcome — after any
number `n` of iterations it is still running and has performed exactly `n`
dispatches, so no attempt ceiling exists and no terminal error is ever
surfaced. -/
theorem C3_rotation_loop_unbounded :
    ∀ n : Nat, ∃ c2 t2, engineRun rlDispatch n (c3State 0 0 0) =
      LoopOutcome.running (c3State c2 t2 n) := by
  intro n
  obtain ⟨c2, t2, hrun, _⟩ := engineRun_c3 n 0 0 0 (Nat.le_refl 0)
  exact ⟨c2, t2, by simpa using hrun⟩

/-- Claim C6: when the remote dispatch fails with the malformed-request
signal (`BadRequestError`), the engine propagates it at once: the iteration
terminates with that error, the key entries are unchanged (no marking, no
cooldown), exactly this one dispatch was performed, and no further iteration
runs for any remaining fuel. -/
theorem C6_malformed_request_fatal (ds : Nat → Outcome) (s : LoopState) (idx : Nat)
    (hsel : get_available_key_index s.time s.keys s.cur = some idx)
    (hd : ds s.attempts = Outcome.badRequest) :
    engineStep ds s = LoopOutcome.errBadRequest ⟨s.keys, idx, s.time, s.attempts + 1⟩ ∧
    ∀ n : Nat, engineRun ds (n + 1) s =
      LoopOutcome.errBadRequest ⟨s.keys, idx, s.time, s.attempts + 1⟩ := by
  have hstep : engineStep ds s = LoopOutcome.errBadRequest ⟨s.keys, idx, s.time, s.attempts + 1⟩ := by
    simp only [engineStep, hsel, hd]
  refine ⟨hstep, ?_⟩
  intro n
  unfold engineRun
  rw [hstep]

/-- Witness for claim C6: one available key, first dispatch malformed — the
loop ends immediately with the propagated error and untouched key state. -/
theorem C6_malformed_request_fatal_witness :
    engineStep (fun _ => Outcome.badRequest) ⟨[⟨"sk-0", 0, false⟩], 0, 0, 0⟩ =
      LoopOutcome.errBadRequest ⟨[⟨"sk-0", 0, false⟩], 0, 0, 1⟩ :=
  (C6_malformed_request_fatal (fun _ => Outcome.badRequest) ⟨[⟨"sk-0", 0, false⟩], 0, 0, 0⟩ 0
    (by decide) rfl).1

end Jarvis
